import Mathlib

/-
  Verification of the Napier MCP client (src/cli.py) against its
  natural-language specification.

  Shallow embedding conventions:
  * Python strings are modelled as lists of characters (`Str`).
  * The external collaborators (Gemini model backend, MCP tool session,
    json.loads of the standard library) are modelled as oracle functions
    supplied to the embedded operations; everything the repository itself
    computes is translated from the source.
  * Stateful methods of NapierClient become explicit state-passing
    functions over `ClientState`.
-/

namespace Napier

/-- Python strings are lists of characters. -/
abbrev Str := List Char

/-- Turn a Lean string literal into the character-list model. -/
def str (s : String) : Str := s.data

/-- The backtick character, recovered from a string literal. -/
def btick : Char := (str "`").headD ' '

/-- ASCII whitespace, the characters matched by the regex class backslash-s
and stripped by Python str.strip for ASCII text. -/
def isWs (c : Char) : Bool :=
  c = ' ' || c = '\t' || c = '\n' || c = '\r' || c = '\x0b' || c = '\x0c'

/-- Python substring membership: `pat in s`. -/
def containsSub (pat s : Str) : Bool :=
  match s with
  | [] => pat.isEmpty
  | c :: rest => pat.isPrefixOf (c :: rest) || containsSub pat rest

/-- Python str.lower (ASCII view). -/
def pyLower (s : Str) : Str := s.map Char.toLower

/-- Drop leading whitespace (Python str.lstrip). -/
def stripLead (s : Str) : Str := s.dropWhile isWs

/-- Drop trailing whitespace (Python str.rstrip). -/
def stripTrail (s : Str) : Str := (s.reverse.dropWhile isWs).reverse

/-- Python str.strip. -/
def pyStrip (s : Str) : Str := stripTrail (stripLead s)

/-!  ## OutputSanitizer: NapierClient._clean_tool_output (src/cli.py lines 404-435)

The method applies two re.sub substitutions.  The first removes every
occurrence of three backticks followed by an optional tag (html, xml,
markdown or nothing) and a newline; the alternation in the pattern tries
the tags in that order.  The second removes every remaining occurrence of
three backticks.  re.sub scans left to right and removes non-overlapping
matches, continuing right after each removed occurrence. -/

/-- First substitution of _clean_tool_output (line 411). -/
def sub1 (s : Str) : Str :=
  match s with
  | [] => []
  | c :: cs =>
    if (str "```html\n").isPrefixOf (c :: cs) then sub1 (cs.drop 7)
    else if (str "```xml\n").isPrefixOf (c :: cs) then sub1 (cs.drop 6)
    else if (str "```markdown\n").isPrefixOf (c :: cs) then sub1 (cs.drop 11)
    else if (str "```\n").isPrefixOf (c :: cs) then sub1 (cs.drop 3)
    else c :: sub1 cs
termination_by s.length
decreasing_by
  all_goals (simp [List.length_drop]; try omega)

/-- Second substitution of _clean_tool_output (line 412). -/
def sub2 (s : Str) : Str :=
  match s with
  | [] => []
  | c :: cs =>
    if (str "```").isPrefixOf (c :: cs) then sub2 (cs.drop 2)
    else c :: sub2 cs
termination_by s.length
decreasing_by
  all_goals (simp [List.length_drop]; try omega)

/-- NapierClient._clean_tool_output (lines 404-435), translated branch by
branch.  Tool names are matched by Python substring tests on the lowered
name; the get and content branch strips and truncates to 1000 characters;
an output that is whitespace-only after cleaning becomes a fixed marker. -/
def cleanToolOutput (toolName output : Str) : Str :=
  if containsSub (str "playwright") (pyLower toolName) then
    let o1 := sub2 (sub1 output)
    if containsSub (str "screenshot") (pyLower toolName) then
      str "Screenshot captured successfully."
    else if containsSub (str "navigate") (pyLower toolName)
         || containsSub (str "goto") (pyLower toolName) then
      str "Navigated to the requested page successfully."
    else if containsSub (str "click") (pyLower toolName) then
      str "Clicked on the specified element."
    else
      let o2 :=
        if containsSub (str "get") (pyLower toolName)
           && containsSub (str "content") (pyLower toolName) then
          let o := pyStrip o1
          if 1000 < o.length then o.take 997 ++ str "..." else o
        else o1
      if (pyStrip o2).length = 0 then str "Operation completed successfully."
      else o2
  else output

/-!  ## ToolCallExtractor: the re.findall call in process_query (lines 340-342)

The pattern is three backticks, the tag json, an optional whitespace run, a
captured group consisting of an opening brace, a run of non-backtick
characters and a closing brace, an optional whitespace run and three
closing backticks.  re.findall scans positions left to right; at the first
position where the pattern matches it records group 1 and resumes scanning
immediately after the end of the match.  Greedy matching of the inner run
places the closing brace of the group at the last brace of the non-backtick
run whose remaining suffix before the closing fence is all whitespace. -/

/-- Attempt to match the tool-call pattern at the start of `s`; on success
return the captured group and the remainder of the text after the match. -/
def matchAt (s : Str) : Option (Str × Str) :=
  if (str "```json").isPrefixOf s then
    match (s.drop 7).dropWhile isWs with
    | c :: s2 =>
      if c = '\x7b' then
        let run := s2.takeWhile (fun d => d ≠ btick)
        let rest := s2.dropWhile (fun d => d ≠ btick)
        if (str "```").isPrefixOf rest then
          let body := stripTrail run
          if body.getLast? = some '\x7d' then some ('\x7b' :: body, rest.drop 3)
          else none
        else none
      else none
    | [] => none
  else none

theorem length_dropWhile_le (p : Char → Bool) (l : Str) :
    (l.dropWhile p).length ≤ l.length := by
  induction l with
  | nil => simp
  | cons c cs ih =>
    by_cases h : p c
    · simp [List.dropWhile_cons, h]; omega
    · simp [List.dropWhile_cons, h]

theorem matchAt_rest_length {s cap rest : Str}
    (h : matchAt s = some (cap, rest)) : rest.length < s.length := by
  unfold matchAt at h
  split at h
  · rename_i hpre
    split at h
    · rename_i c s2 heq
      split at h
      · dsimp only at h
        split at h
        · split at h
          · injection h with h'
            have hrest : ((s2.dropWhile (fun d => d ≠ btick)).drop 3) = rest :=
              congrArg Prod.snd h'
            have hd : ((s2.dropWhile (fun d => d ≠ btick)).drop 3).length
                ≤ s2.length := by
              rw [List.length_drop]
              have := length_dropWhile_le (fun d => d ≠ btick) s2
              omega
            have hlen : (c :: s2).length ≤ (s.drop 7).length := by
              rw [← heq]; exact length_dropWhile_le _ _
            have h7 : (s.drop 7).length = s.length - 7 := List.length_drop 7 s
            rw [hrest] at hd
            simp only [List.length_cons] at hlen
            omega
          · exact absurd h (by simp)
        · exact absurd h (by simp)
      · exact absurd h (by simp)
    · exact absurd h (by simp)
  · exact absurd h (by simp)

/-- re.findall over the tool-call pattern: scan left to right, collecting
every captured group of a non-overlapping match. -/
def findall (s : Str) : List Str :=
  match s with
  | [] => []
  | c :: cs =>
    match h : matchAt (c :: cs) with
    | some (cap, rest) => cap :: findall rest
    | none => findall cs
termination_by s.length
decreasing_by
  · exact matchAt_rest_length h
  · simp

/-!  ## Data model

JSON values as produced by json.loads, conversation turns, and the mutable
fields of NapierClient that the claims observe (session, the exit stack of
entered async contexts, chat_history, connected_server).  Connections are
identified by numeric ids; each successful connect enters two async
contexts (the stdio transport and the ClientSession), recorded on the exit
stack and released only by cleanup. -/

inductive JVal where
  | jnull : JVal
  | jbool : Bool → JVal
  | jnum : Int → JVal
  | jstr : Str → JVal
  | jarr : List JVal → JVal
  | jobj : List (Str × JVal) → JVal

/-- Python dict.get on the fields of a parsed JSON object. -/
def jGet (fields : List (Str × JVal)) (k : Str) : Option JVal :=
  (fields.find? (fun kv => kv.fst == k)).map Prod.snd

/-- A structured tool-invocation request extracted from model text:
tool_name as returned by dict.get (absent gives none), and parameters with
the empty-object default (line 351). -/
structure ToolCallRequest where
  toolName : Option JVal
  parameters : JVal

inductive Role where
  | user : Role
  | model : Role
deriving DecidableEq

/-- One unit of conversation history, as appended to chat_history. -/
structure Turn where
  role : Role
  parts : List Str

/-- The observable mutable state of NapierClient. -/
structure ClientState where
  session : Option Nat
  exitStackConns : List Nat
  chatHistory : List Turn
  connectedServer : Option Str

/-- State of a freshly constructed NapierClient (lines 114-131), reached
only when the API key is present. -/
def initialClientState : ClientState :=
  { session := none, exitStackConns := [], chatHistory := [],
    connectedServer := none }

/-- NapierClient.__init__ (lines 114-131): a missing or empty
GEMINI_API_KEY is fatal (sys.exit(1)) before any client state exists. -/
def clientInit (apiKey : Option Str) : Except Nat ClientState :=
  match apiKey with
  | none => Except.error 1
  | some k => if k.isEmpty then Except.error 1 else Except.ok initialClientState

inductive MainOutcome where
  | exited : Nat → MainOutcome
  | enteredChatLoop : ClientState → MainOutcome

/-- main (lines 597-622): the banner is printed, the client is constructed
(which exits the process when the credential is missing), and only then is
the interactive chat loop with its prompt entered. -/
def napierMain (apiKey : Option Str) : MainOutcome :=
  match clientInit apiKey with
  | Except.error c => MainOutcome.exited c
  | Except.ok st => MainOutcome.enteredChatLoop st

/-!  ## Oracles for the external collaborators used by process_query

generate models the initial chat.send_message (line 331): ok carries
response.text, error carries the exception text.  loads models json.loads
(line 349), none meaning json.JSONDecodeError.  callTool models
session.call_tool (line 362) applied to the extracted name and parameters,
error meaning a raised exception whose text is carried.  followup models
the follow-up chat.send_message (line 381) for a given tool name and raw
result content. -/

structure QueryEnv where
  generate : Except Str Str
  loads : Str → Option JVal
  callTool : Option JVal → JVal → Except Str Str
  followup : Option JVal → Str → Except Str Str

/-- Accumulator for the per-tool-call loop of process_query
(lines 346-391): the final_response parts, the growing chat history, the
constructed requests, the call_tool invocations, the number of follow-up
model calls, and the number of extraction failures. -/
structure PQAcc where
  parts : List Str
  history : List Turn
  requests : List ToolCallRequest
  invocations : List (Option JVal × JVal)
  followupCalls : Nat
  extractionFailures : Nat

/-- The tool-result block added to final_response (line 369). -/
def resultPart (nm content : Str) : Str :=
  str "\n[Tool Result]\n" ++ cleanToolOutput nm content ++ str "\n"

/-- Message appended on json.JSONDecodeError (line 387). -/
def errFormatPart : Str := str "Error: Invalid tool call format detected."

/-- Message appended by the generic except branch (line 390); the wrapped
text is the str of the raised exception. -/
def errExecPart (e : Str) : Str := str "Error executing tool: " ++ e

/-- Stand-in for the text of the AttributeError raised when the parsed
JSON is not an object (tool_call.get, line 350) or when tool_name is not a
string (tool_name.lower inside _clean_tool_output, line 406); the Python
message text is interpreter-supplied and not modelled further. -/
def attrErrText : Str := str "[attribute error]"

/-- One iteration of the for loop over extracted tool calls
(lines 347-390), faithful to the try/except structure: a parse failure
reports an invalid-format message; a raised call_tool error appends a
localized error string; otherwise the cleaned result block is appended,
the follow-up model call is made, and its narration is appended to both
final_response and chat_history. -/
def processBlock (env : QueryEnv) (acc : PQAcc) (b : Str) : PQAcc :=
  match env.loads b with
  | none =>
      { acc with
        parts := acc.parts ++ [errFormatPart],
        extractionFailures := acc.extractionFailures + 1 }
  | some (JVal.jobj fields) =>
      let name := jGet fields (str "tool_name")
      let params := (jGet fields (str "parameters")).getD (JVal.jobj [])
      match env.callTool name params with
      | Except.error e =>
          { acc with
            requests := acc.requests ++ [⟨name, params⟩],
            invocations := acc.invocations ++ [(name, params)],
            parts := acc.parts ++ [errExecPart e] }
      | Except.ok content =>
          match name with
          | some (JVal.jstr nm) =>
              match env.followup (some (JVal.jstr nm)) content with
              | Except.error e =>
                  { acc with
                    requests := acc.requests ++ [⟨name, params⟩],
                    invocations := acc.invocations ++ [(name, params)],
                    parts := acc.parts ++ [resultPart nm content, errExecPart e],
                    followupCalls := acc.followupCalls + 1 }
              | Except.ok t =>
                  { acc with
                    requests := acc.requests ++ [⟨name, params⟩],
                    invocations := acc.invocations ++ [(name, params)],
                    parts := acc.parts ++ [resultPart nm content, t],
                    history := acc.history ++ [⟨Role.model, [t]⟩],
                    followupCalls := acc.followupCalls + 1 }
          | _ =>
              { acc with
                requests := acc.requests ++ [⟨name, params⟩],
                invocations := acc.invocations ++ [(name, params)],
                parts := acc.parts ++ [errExecPart attrErrText] }
  | some _ =>
      { acc with parts := acc.parts ++ [errExecPart attrErrText] }

/-- Python newline.join. -/
def joinNL (parts : List Str) : Str := (parts.intersperse (str "\n")).flatten

/-- Everything process_query returns or observably changes. -/
structure PQResult where
  state : ClientState
  output : Str
  requests : List ToolCallRequest
  invocations : List (Option JVal × JVal)
  parts : List Str
  followupCalls : Nat
  extractionFailures : Nat

/-- NapierClient.process_query (lines 277-402).  The prompt construction
(lines 293-320) is pure string building consumed by the generate oracle
and is not re-modelled.  The user turn is appended before generation
(line 283); the model turn after a successful generation (line 337); the
fenced tool calls are extracted by findall (line 342); with no extracted
calls the response text is returned as-is (line 397); otherwise the
per-call loop runs and the joined final_response is returned (line 393).
A generation failure returns the error text (line 402) with the history
as it stood. -/
def processQuery (st : ClientState) (query : Str) (env : QueryEnv) : PQResult :=
  match st.session with
  | none =>
      { state := st,
        output := str "Error: Not connected to any MCP server. Use \x27connect\x27 command first.",
        requests := [], invocations := [], parts := [],
        followupCalls := 0, extractionFailures := 0 }
  | some _ =>
      let hist1 := st.chatHistory ++ [⟨Role.user, [query]⟩]
      match env.generate with
      | Except.error e =>
          { state := { st with chatHistory := hist1 },
            output := str "Error processing query: " ++ e,
            requests := [], invocations := [], parts := [],
            followupCalls := 0, extractionFailures := 0 }
      | Except.ok responseText =>
          let hist2 := hist1 ++ [⟨Role.model, [responseText]⟩]
          match findall responseText with
          | [] =>
              { state := { st with chatHistory := hist2 },
                output := responseText,
                requests := [], invocations := [], parts := [],
                followupCalls := 0, extractionFailures := 0 }
          | b :: bs =>
              let acc := (b :: bs).foldl (processBlock env)
                { parts := [], history := hist2, requests := [],
                  invocations := [], followupCalls := 0, extractionFailures := 0 }
              { state := { st with chatHistory := acc.history },
                output := joinNL acc.parts,
                requests := acc.requests, invocations := acc.invocations,
                parts := acc.parts, followupCalls := acc.followupCalls,
                extractionFailures := acc.extractionFailures }

/-- NapierClient.chat_with_gemini (lines 437-465): append the user turn,
generate; on success append the model turn and return its text, on failure
return the error text with the history as it stood. -/
def chatWithGemini (st : ClientState) (query : Str) (gen : Except Str Str) :
    ClientState × Str :=
  let hist1 := st.chatHistory ++ [⟨Role.user, [query]⟩]
  match gen with
  | Except.error e => ({ st with chatHistory := hist1 }, str "Error: " ++ e)
  | Except.ok t =>
      ({ st with chatHistory := hist1 ++ [⟨Role.model, [t]⟩] }, t)

/-!  ## ToolSession connect (lines 167-275) and cleanup (lines 592-595)

Both connect methods enter a stdio transport context and a ClientSession
context on the shared AsyncExitStack; neither closes anything previously
entered.  The failure point of the external transport is a parameter: the
transport enter can fail, the session enter can fail (before self.session
is assigned), session.initialize can fail (after the assignment), or
list_tools can fail.  Every failure inside the try is caught, printed, and
the method returns None. -/

inductive ConnectStep where
  | transportFail : ConnectStep
  | sessionEnterFail : ConnectStep
  | sessionStartFail : ConnectStep
  | listToolsFail : ConnectStep
  | success : ConnectStep
deriving DecidableEq

inductive ConnectResult where
  | valueError : ConnectResult
  | failed : ConnectResult
  | connected : List Str → ConnectResult
deriving DecidableEq

/-- Python str.endswith. -/
def endsWith (suffix s : Str) : Bool := suffix.isSuffixOf s

/-- NapierClient.connect_to_server (lines 167-212).  connected_server is
assigned first (line 174), before the extension validation (lines
176-179, which raises ValueError) and before the connection attempt.  On
any caught failure the method returns None; self.session is only
reassigned once the ClientSession context has been entered (line 192). -/
def connectToServer (st : ClientState) (path : Str) (connId : Nat)
    (step : ConnectStep) (toolNames : List Str) : ClientState × ConnectResult :=
  let st := { st with connectedServer := some path }
  if ¬(endsWith (str ".py") path || endsWith (str ".js") path) then
    (st, ConnectResult.valueError)
  else
    match step with
    | ConnectStep.transportFail => (st, ConnectResult.failed)
    | ConnectStep.sessionEnterFail =>
        ({ st with exitStackConns := st.exitStackConns ++ [connId] },
         ConnectResult.failed)
    | ConnectStep.sessionStartFail =>
        ({ st with exitStackConns := st.exitStackConns ++ [connId, connId],
                   session := some connId },
         ConnectResult.failed)
    | ConnectStep.listToolsFail =>
        ({ st with exitStackConns := st.exitStackConns ++ [connId, connId],
                   session := some connId },
         ConnectResult.failed)
    | ConnectStep.success =>
        ({ st with exitStackConns := st.exitStackConns ++ [connId, connId],
                   session := some connId },
         ConnectResult.connected toolNames)

/-- Observable actions of connect_to_server_from_config, in order. -/
inductive Event where
  | sessionStarted : Nat → Event
  | toolsEnumerated : Event
  | playwrightInstall : Event
  | toolInvoked : Str → Event
deriving DecidableEq

/-- Configuration entry for a named MCP server. -/
structure ServerConfig where
  command : Str
  args : List Str

/-- NapierClient.connect_to_server_from_config (lines 214-275).  The
registry lookup happens first (lines 220-225): an unknown name is reported
and the method returns None without touching any client field.  Only then
is connected_server assigned (line 232).  After a fully successful
connect, a server whose lowered name equals playwright triggers the
browser-install preparation step (lines 268-270), after initialization and
tool enumeration but before any tool of the session is invoked. -/
def connectToServerFromConfig (st : ClientState) (serverName : Str)
    (cfg : Option ServerConfig) (connId : Nat) (step : ConnectStep)
    (toolNames : List Str) : ClientState × ConnectResult × List Event :=
  match cfg with
  | none => (st, ConnectResult.failed, [])
  | some _ =>
      let st := { st with connectedServer := some serverName }
      match step with
      | ConnectStep.transportFail => (st, ConnectResult.failed, [])
      | ConnectStep.sessionEnterFail =>
          ({ st with exitStackConns := st.exitStackConns ++ [connId] },
           ConnectResult.failed, [])
      | ConnectStep.sessionStartFail =>
          ({ st with exitStackConns := st.exitStackConns ++ [connId, connId],
                     session := some connId },
           ConnectResult.failed, [])
      | ConnectStep.listToolsFail =>
          ({ st with exitStackConns := st.exitStackConns ++ [connId, connId],
                     session := some connId },
           ConnectResult.failed, [Event.sessionStarted connId])
      | ConnectStep.success =>
          ({ st with exitStackConns := st.exitStackConns ++ [connId, connId],
                     session := some connId },
           ConnectResult.connected toolNames,
           [Event.sessionStarted connId, Event.toolsEnumerated] ++
             (if pyLower serverName = str "playwright"
              then [Event.playwrightInstall] else []))

/-- NapierClient.cleanup (lines 592-595): exit_stack.aclose releases every
entered context. -/
def cleanup (st : ClientState) : ClientState :=
  { st with exitStackConns := [] }

/-!  ## List helpers for the extraction proofs -/

theorem isPrefixOf_append_self (l t : Str) : l.isPrefixOf (l ++ t) = true := by
  induction l with
  | nil => simp [List.isPrefixOf]
  | cons c cs ih => simpa [List.isPrefixOf] using ih

theorem takeWhile_append_all (p : Char → Bool) (xs ys : Str)
    (h : ∀ c ∈ xs, p c = true) :
    (xs ++ ys).takeWhile p = xs ++ ys.takeWhile p := by
  induction xs with
  | nil => simp
  | cons c cs ih =>
    have hc : p c = true := h c (by simp)
    simp [List.takeWhile_cons, hc]
    exact ih (fun d hd => h d (by simp [hd]))

theorem dropWhile_append_all (p : Char → Bool) (xs ys : Str)
    (h : ∀ c ∈ xs, p c = true) :
    (xs ++ ys).dropWhile p = ys.dropWhile p := by
  induction xs with
  | nil => simp
  | cons c cs ih =>
    have hc : p c = true := h c (by simp)
    simp [List.dropWhile_cons, hc]
    exact ih (fun d hd => h d (by simp [hd]))

theorem stripTrail_concat_nonws (xs : Str) (c : Char) (h : isWs c = false) :
    stripTrail (xs ++ [c]) = xs ++ [c] := by
  unfold stripTrail
  rw [List.reverse_append]
  simp [List.dropWhile_cons, h]

theorem stripTrail_concat_ws (xs : Str) (c : Char) (h : isWs c = true) :
    stripTrail (xs ++ [c]) = stripTrail xs := by
  unfold stripTrail
  rw [List.reverse_append]
  simp [List.dropWhile_cons, h]

/-!  ## Well-formed fenced responses

A model response is represented as a sequence of segments: free text
containing no backtick, and fenced tool-call blocks.  A block renders as
the opening fence with the json tag, a newline, the block body, a newline
and the closing fence — the exact convention mandated by the system prompt
of process_query (lines 306-316).  A body is structurally well formed when
it opens with a brace, closes with a brace and contains no backtick. -/

def fenceOpen : Str := str "```json\n"

def fenceClose : Str := str "\n```"

inductive Seg where
  | text : Str → Seg
  | block : Str → Seg

def renderSeg : Seg → Str
  | Seg.text t => t
  | Seg.block j => fenceOpen ++ j ++ fenceClose

def render (doc : List Seg) : Str := (doc.map renderSeg).flatten

def blocksOf (doc : List Seg) : List Str :=
  doc.filterMap (fun s => match s with | Seg.block j => some j | _ => none)

def wfSeg : Seg → Prop
  | Seg.text t => btick ∉ t
  | Seg.block j => (∃ b, j = '\x7b' :: b ++ ['\x7d']) ∧ btick ∉ j

def wfDoc (doc : List Seg) : Prop := ∀ s ∈ doc, wfSeg s

theorem matchAt_none_of_head {c : Char} (cs : Str) (h : ¬ c = btick) :
    matchAt (c :: cs) = none := by
  unfold matchAt
  have : (str "```json").isPrefixOf (c :: cs) = false := by
    show (('`' == c) && _) = false
    have : ('`' == c) = false := by
      apply beq_eq_false_iff_ne.mpr
      intro hc
      exact h (by rw [← hc]; rfl)
    simp [this]
  simp [this]

theorem matchAt_render_block (j r : Str)
    (hj : ∃ b, j = '\x7b' :: b ++ ['\x7d']) (hb : btick ∉ j) :
    matchAt (fenceOpen ++ (j ++ (fenceClose ++ r))) = some (j, r) := by
  obtain ⟨b, rfl⟩ := hj
  have hbb : btick ∉ b := by
    intro hm; exact hb (by simp [hm])
  have hshape : fenceOpen ++ (('\x7b' :: b ++ ['\x7d']) ++ (fenceClose ++ r)) =
      str "```json" ++ ('\n' :: '\x7b' :: ((b ++ ['\x7d', '\n']) ++ ('`' :: '`' :: '`' :: r))) := by
    show fenceOpen ++ _ = _
    unfold fenceOpen fenceClose str
    simp
  rw [hshape]
  unfold matchAt
  rw [if_pos (isPrefixOf_append_self (str "```json") _)]
  have hdrop : (str "```json" ++ ('\n' :: '\x7b' :: ((b ++ ['\x7d', '\n']) ++ ('`' :: '`' :: '`' :: r)))).drop 7 =
      '\n' :: '\x7b' :: ((b ++ ['\x7d', '\n']) ++ ('`' :: '`' :: '`' :: r)) := by
    have h7 : (str "```json").length = 7 := by decide
    rw [← h7, List.drop_left]
  rw [hdrop]
  have hdw : List.dropWhile isWs ('\n' :: '\x7b' :: ((b ++ ['\x7d', '\n']) ++ ('`' :: '`' :: '`' :: r))) =
      '\x7b' :: ((b ++ ['\x7d', '\n']) ++ ('`' :: '`' :: '`' :: r)) := by
    rw [List.dropWhile_cons]
    simp [isWs, List.dropWhile_cons]
  rw [hdw]
  simp only []
  rw [if_true]
  have hall : ∀ c ∈ b ++ ['\x7d', '\n'], (decide (c ≠ btick)) = true := by
    intro c hc
    simp only [List.mem_append, List.mem_cons] at hc
    rcases hc with hc | hc
    · simp only [decide_eq_true_eq]
      intro he; exact hbb (he ▸ hc)
    · rcases hc with hc | hc
      · subst hc; decide
      · rcases hc with hc | hc
        · subst hc; decide
        · cases hc
  have htake : List.takeWhile (fun d => decide (d ≠ btick)) ((b ++ ['\x7d', '\n']) ++ ('`' :: '`' :: '`' :: r)) =
      b ++ ['\x7d', '\n'] := by
    rw [takeWhile_append_all _ _ _ hall]
    rw [List.takeWhile_cons_of_neg (by decide)]
    simp
  have hdrop2 : List.dropWhile (fun d => decide (d ≠ btick)) ((b ++ ['\x7d', '\n']) ++ ('`' :: '`' :: '`' :: r)) =
      '`' :: '`' :: '`' :: r := by
    rw [dropWhile_append_all _ _ _ hall]
    rw [List.dropWhile_cons_of_neg (by decide)]
  rw [htake, hdrop2]
  have hpre3 : (str "```").isPrefixOf ('`' :: '`' :: '`' :: r) = true := by
    have : ('`' :: '`' :: '`' :: r) = str "```" ++ r := by simp [str]
    rw [this]
    exact isPrefixOf_append_self _ _
  rw [if_pos hpre3]
  have hstrip : stripTrail (b ++ ['\x7d', '\n']) = b ++ ['\x7d'] := by
    have : b ++ ['\x7d', '\n'] = (b ++ ['\x7d']) ++ ['\n'] := by simp
    rw [this, stripTrail_concat_ws _ _ (by decide),
        stripTrail_concat_nonws _ _ (by decide)]
  rw [hstrip]
  have hlast : (b ++ ['\x7d']).getLast? = some '\x7d' := by
    simp [List.getLast?_append]
  rw [if_pos hlast]
  simp

theorem matchAt_nil : matchAt [] = none := by
  unfold matchAt
  simp [str, List.isPrefixOf]

theorem findall_cons_some {c : Char} {cs cap rest : Str}
    (h : matchAt (c :: cs) = some (cap, rest)) :
    findall (c :: cs) = cap :: findall rest := by
  rw [findall]
  split
  · rename_i cap' rest' h'
    rw [h] at h'
    injection h' with h''
    injection h'' with h1 h2
    rw [h1, h2]
  · rename_i h'
    rw [h] at h'
    cases h'

theorem findall_cons_none {c : Char} {cs : Str}
    (h : matchAt (c :: cs) = none) :
    findall (c :: cs) = findall cs := by
  rw [findall]
  split
  · rename_i cap' rest' h'
    rw [h] at h'
    cases h'
  · rfl

theorem findall_nil : findall [] = [] := by
  rw [findall]

theorem findall_eq_of_matchAt_some {s cap rest : Str}
    (h : matchAt s = some (cap, rest)) :
    findall s = cap :: findall rest := by
  match s with
  | [] => rw [matchAt_nil] at h; cases h
  | c :: cs => exact findall_cons_some h

/-- Scanning free text containing no backtick finds nothing: every match
of the pattern begins with a backtick. -/
theorem findall_text_append (t r : Str) (ht : btick ∉ t) :
    findall (t ++ r) = findall r := by
  induction t with
  | nil => simp
  | cons c cs ih =>
    have hc : ¬ c = btick := by
      intro hc; exact ht (by simp [hc])
    rw [List.cons_append, findall_cons_none (matchAt_none_of_head _ hc)]
    exact ih (fun hm => ht (by simp [hm]))

theorem render_cons (sg : Seg) (doc : List Seg) :
    render (sg :: doc) = renderSeg sg ++ render doc := by
  simp [render]

/-- ToolCallExtractor ground truth: on the rendering of a well-formed
segmented response, findall returns exactly the block bodies, in order of
appearance. -/
theorem extraction_complete (doc : List Seg) (h : wfDoc doc) :
    findall (render doc) = blocksOf doc := by
  induction doc with
  | nil => simp [render, blocksOf, findall_nil]
  | cons sg rest ih =>
    have hrest : wfDoc rest := fun s hs => h s (by simp [hs])
    have hih := ih hrest
    cases sg with
    | text t =>
      have ht : btick ∉ t := h (Seg.text t) (by simp)
      rw [render_cons]
      show findall (t ++ render rest) = blocksOf (Seg.text t :: rest)
      rw [findall_text_append t _ ht, hih]
      simp [blocksOf]
    | block j =>
      have hj := h (Seg.block j) (by simp)
      obtain ⟨hjs, hjb⟩ := hj
      rw [render_cons]
      show findall (fenceOpen ++ j ++ fenceClose ++ render rest) =
        blocksOf (Seg.block j :: rest)
      have hshape : fenceOpen ++ j ++ fenceClose ++ render rest =
          fenceOpen ++ (j ++ (fenceClose ++ render rest)) := by
        simp [List.append_assoc]
      rw [hshape,
          findall_eq_of_matchAt_some (matchAt_render_block j (render rest) hjs hjb),
          hih]
      simp [blocksOf]

/-!  ## Decomposition of the per-block loop

processBlock only appends to the list fields and adds to the counters, so
a fold over a block list decomposes blockwise.  blockOut is the
contribution of a single block starting from the empty accumulator. -/

def accNil : PQAcc :=
  { parts := [], history := [], requests := [], invocations := [],
    followupCalls := 0, extractionFailures := 0 }

def blockOut (env : QueryEnv) (b : Str) : PQAcc := processBlock env accNil b

theorem processBlock_decomp (env : QueryEnv) (acc : PQAcc) (b : Str) :
    processBlock env acc b =
      { parts := acc.parts ++ (blockOut env b).parts,
        history := acc.history ++ (blockOut env b).history,
        requests := acc.requests ++ (blockOut env b).requests,
        invocations := acc.invocations ++ (blockOut env b).invocations,
        followupCalls := acc.followupCalls + (blockOut env b).followupCalls,
        extractionFailures :=
          acc.extractionFailures + (blockOut env b).extractionFailures } := by
  unfold blockOut processBlock
  rcases henv : env.loads b with _ | v
  · simp [accNil]
  · rcases v with _ | bb | nn | sv | av | fields
    · simp [accNil]
    · simp [accNil]
    · simp [accNil]
    · simp [accNil]
    · simp [accNil]
    · dsimp only
      rcases hct : env.callTool (jGet fields (str "tool_name"))
          ((jGet fields (str "parameters")).getD (JVal.jobj [])) with e | content
      · simp [accNil]
      · rcases hname : jGet fields (str "tool_name") with _ | nv
        · simp [accNil]
        · rcases nv with _ | b2 | n2 | s2 | a2 | f2
          · simp [accNil]
          · simp [accNil]
          · simp [accNil]
          · rcases hfu : env.followup (some (JVal.jstr s2)) content with e2 | t2
            · simp [accNil, hfu]
            · simp [accNil, hfu]
          · simp [accNil]
          · simp [accNil]

theorem foldl_parts (env : QueryEnv) (bs : List Str) (acc : PQAcc) :
    (bs.foldl (processBlock env) acc).parts =
      acc.parts ++ (bs.map (fun b => (blockOut env b).parts)).flatten := by
  induction bs generalizing acc with
  | nil => simp
  | cons b bs ih =>
    rw [List.foldl_cons, ih, processBlock_decomp]
    simp

theorem foldl_history (env : QueryEnv) (bs : List Str) (acc : PQAcc) :
    (bs.foldl (processBlock env) acc).history =
      acc.history ++ (bs.map (fun b => (blockOut env b).history)).flatten := by
  induction bs generalizing acc with
  | nil => simp
  | cons b bs ih =>
    rw [List.foldl_cons, ih, processBlock_decomp]
    simp

theorem foldl_requests (env : QueryEnv) (bs : List Str) (acc : PQAcc) :
    (bs.foldl (processBlock env) acc).requests =
      acc.requests ++ (bs.map (fun b => (blockOut env b).requests)).flatten := by
  induction bs generalizing acc with
  | nil => simp
  | cons b bs ih =>
    rw [List.foldl_cons, ih, processBlock_decomp]
    simp

theorem foldl_invocations (env : QueryEnv) (bs : List Str) (acc : PQAcc) :
    (bs.foldl (processBlock env) acc).invocations =
      acc.invocations ++ (bs.map (fun b => (blockOut env b).invocations)).flatten := by
  induction bs generalizing acc with
  | nil => simp
  | cons b bs ih =>
    rw [List.foldl_cons, ih, processBlock_decomp]
    simp

theorem foldl_followupCalls (env : QueryEnv) (bs : List Str) (acc : PQAcc) :
    (bs.foldl (processBlock env) acc).followupCalls =
      acc.followupCalls + (bs.map (fun b => (blockOut env b).followupCalls)).sum := by
  induction bs generalizing acc with
  | nil => simp
  | cons b bs ih =>
    rw [List.foldl_cons, ih, processBlock_decomp]
    simp
    omega

theorem foldl_extractionFailures (env : QueryEnv) (bs : List Str) (acc : PQAcc) :
    (bs.foldl (processBlock env) acc).extractionFailures =
      acc.extractionFailures +
        (bs.map (fun b => (blockOut env b).extractionFailures)).sum := by
  induction bs generalizing acc with
  | nil => simp
  | cons b bs ih =>
    rw [List.foldl_cons, ih, processBlock_decomp]
    simp
    omega

/-!  ## Per-block outcomes -/

/-- The ToolCallRequest built from a parsed block (lines 350-351); junk
value for the unreachable non-object case. -/
def requestOf : Option JVal → ToolCallRequest
  | some (JVal.jobj f) =>
      ⟨jGet f (str "tool_name"), (jGet f (str "parameters")).getD (JVal.jobj [])⟩
  | _ => ⟨none, JVal.jobj []⟩

/-- The name and parameters passed to session.call_tool (line 362). -/
def invocationOf (v : Option JVal) : Option JVal × JVal :=
  ((requestOf v).toolName, (requestOf v).parameters)

/-- Whether json.loads produced an object. -/
def isObjV : Option JVal → Bool
  | some (JVal.jobj _) => true
  | _ => false

theorem blockOut_malformed (env : QueryEnv) (b : Str)
    (h : env.loads b = none) :
    blockOut env b =
      { parts := [errFormatPart], history := [], requests := [],
        invocations := [], followupCalls := 0, extractionFailures := 1 } := by
  unfold blockOut processBlock
  simp [h, accNil]

theorem blockOut_obj (env : QueryEnv) (b : Str)
    (h : isObjV (env.loads b) = true) :
    (blockOut env b).requests = [requestOf (env.loads b)]
    ∧ (blockOut env b).invocations = [invocationOf (env.loads b)]
    ∧ (blockOut env b).extractionFailures = 0 := by
  unfold blockOut processBlock
  rcases henv : env.loads b with _ | v
  · rw [henv] at h; simp [isObjV] at h
  · rcases v with _ | bb | nn | sv | av | fields
    · rw [henv] at h; simp [isObjV] at h
    · rw [henv] at h; simp [isObjV] at h
    · rw [henv] at h; simp [isObjV] at h
    · rw [henv] at h; simp [isObjV] at h
    · rw [henv] at h; simp [isObjV] at h
    · dsimp only
      rcases hct : env.callTool (jGet fields (str "tool_name"))
          ((jGet fields (str "parameters")).getD (JVal.jobj [])) with e | content
      · simp [accNil, henv, requestOf, invocationOf]
      · rcases hname : jGet fields (str "tool_name") with _ | nv
        · simp [accNil, henv, hname, requestOf, invocationOf]
        · rcases nv with _ | b2 | n2 | s2 | a2 | f2
          · simp [accNil, henv, hname, requestOf, invocationOf]
          · simp [accNil, henv, hname, requestOf, invocationOf]
          · simp [accNil, henv, hname, requestOf, invocationOf]
          · rcases hfu : env.followup (some (JVal.jstr s2)) content with e2 | t2
            · simp [accNil, henv, hname, hfu, requestOf, invocationOf]
            · simp [accNil, henv, hname, hfu, requestOf, invocationOf]
          · simp [accNil, henv, hname, requestOf, invocationOf]
          · simp [accNil, henv, hname, requestOf, invocationOf]

theorem blockOut_callFail (env : QueryEnv) (b : Str)
    (fields : List (Str × JVal)) (e : Str)
    (hl : env.loads b = some (JVal.jobj fields))
    (hc : env.callTool (jGet fields (str "tool_name"))
        ((jGet fields (str "parameters")).getD (JVal.jobj [])) =
        Except.error e) :
    (blockOut env b).parts = [errExecPart e]
    ∧ (blockOut env b).followupCalls = 0 := by
  unfold blockOut processBlock
  simp [hl, hc, accNil]

theorem blockOut_callOk (env : QueryEnv) (b : Str)
    (fields : List (Str × JVal)) (nm content t : Str)
    (hl : env.loads b = some (JVal.jobj fields))
    (hname : jGet fields (str "tool_name") = some (JVal.jstr nm))
    (hc : env.callTool (jGet fields (str "tool_name"))
        ((jGet fields (str "parameters")).getD (JVal.jobj [])) =
        Except.ok content)
    (hfu : env.followup (some (JVal.jstr nm)) content = Except.ok t) :
    (blockOut env b).parts = [resultPart nm content, t]
    ∧ (blockOut env b).followupCalls = 1 := by
  unfold blockOut processBlock
  rw [hname] at hc
  simp [hl, hname, hc, hfu, accNil]

/-!  ## Evaluation lemmas for process_query -/

theorem processQuery_genError (st : ClientState) (q : Str) (env : QueryEnv)
    (sid : Nat) (e : Str)
    (hs : st.session = some sid) (hg : env.generate = Except.error e) :
    processQuery st q env =
      { state := { st with chatHistory := st.chatHistory ++ [⟨Role.user, [q]⟩] },
        output := str "Error processing query: " ++ e,
        requests := [], invocations := [], parts := [],
        followupCalls := 0, extractionFailures := 0 } := by
  unfold processQuery
  rw [hs, hg]

theorem processQuery_noBlocks (st : ClientState) (q : Str) (env : QueryEnv)
    (sid : Nat) (rt : Str)
    (hs : st.session = some sid) (hg : env.generate = Except.ok rt)
    (hf : findall rt = []) :
    processQuery st q env =
      { state := { st with chatHistory :=
          st.chatHistory ++ [⟨Role.user, [q]⟩] ++ [⟨Role.model, [rt]⟩] },
        output := rt,
        requests := [], invocations := [], parts := [],
        followupCalls := 0, extractionFailures := 0 } := by
  unfold processQuery
  rw [hs, hg]
  simp only [hf]

theorem processQuery_blocks (st : ClientState) (q : Str) (env : QueryEnv)
    (sid : Nat) (rt b0 : Str) (bs : List Str)
    (hs : st.session = some sid) (hg : env.generate = Except.ok rt)
    (hf : findall rt = b0 :: bs) :
    processQuery st q env =
      { state := { st with chatHistory :=
          st.chatHistory ++ [⟨Role.user, [q]⟩] ++ [⟨Role.model, [rt]⟩] ++
            ((b0 :: bs).map (fun b => (blockOut env b).history)).flatten },
        output := joinNL (((b0 :: bs).map (fun b => (blockOut env b).parts)).flatten),
        requests := ((b0 :: bs).map (fun b => (blockOut env b).requests)).flatten,
        invocations := ((b0 :: bs).map (fun b => (blockOut env b).invocations)).flatten,
        parts := ((b0 :: bs).map (fun b => (blockOut env b).parts)).flatten,
        followupCalls := ((b0 :: bs).map (fun b => (blockOut env b).followupCalls)).sum,
        extractionFailures :=
          ((b0 :: bs).map (fun b => (blockOut env b).extractionFailures)).sum } := by
  unfold processQuery
  rw [hs, hg]
  simp only [hf]
  rw [foldl_parts, foldl_history, foldl_requests, foldl_invocations,
      foldl_followupCalls, foldl_extractionFailures]
  simp [List.append_assoc]

theorem isObjV_iff (v : Option JVal) :
    isObjV v = true ↔ ∃ f, v = some (JVal.jobj f) := by
  constructor
  · intro h
    rcases v with _ | w
    · exact absurd h (by simp [isObjV])
    · rcases w with _ | b | n | s | a | f
      · exact absurd h (by simp [isObjV])
      · exact absurd h (by simp [isObjV])
      · exact absurd h (by simp [isObjV])
      · exact absurd h (by simp [isObjV])
      · exact absurd h (by simp [isObjV])
      · exact ⟨f, rfl⟩
  · rintro ⟨f, rfl⟩
    rfl

theorem flatten_requests (env : QueryEnv) (bs : List Str)
    (hp : ∀ j ∈ bs, isObjV (env.loads j) = true) :
    (bs.map (fun b => (blockOut env b).requests)).flatten =
      bs.map (fun j => requestOf (env.loads j)) := by
  induction bs with
  | nil => simp
  | cons b bs ih =>
    have hb := (blockOut_obj env b (hp b (by simp))).1
    simp only [List.map_cons, List.flatten_cons, hb]
    rw [ih (fun j hj => hp j (by simp [hj]))]
    rfl

theorem flatten_invocations (env : QueryEnv) (bs : List Str)
    (hp : ∀ j ∈ bs, isObjV (env.loads j) = true) :
    (bs.map (fun b => (blockOut env b).invocations)).flatten =
      bs.map (fun j => invocationOf (env.loads j)) := by
  induction bs with
  | nil => simp
  | cons b bs ih =>
    have hb := (blockOut_obj env b (hp b (by simp))).2.1
    simp only [List.map_cons, List.flatten_cons, hb]
    rw [ih (fun j hj => hp j (by simp [hj]))]
    rfl

theorem sum_fails_zero (env : QueryEnv) (bs : List Str)
    (hp : ∀ j ∈ bs, isObjV (env.loads j) = true) :
    (bs.map (fun b => (blockOut env b).extractionFailures)).sum = 0 := by
  induction bs with
  | nil => simp
  | cons b bs ih =>
    have hb := (blockOut_obj env b (hp b (by simp))).2.2
    simp only [List.map_cons, List.sum_cons, hb]
    rw [ih (fun j hj => hp j (by simp [hj]))]

/-- C1: for every model response text that is the rendering of a
well-formed segmented document with k fenced structured tool-call blocks,
each holding text that json.loads parses to an object, process_query
constructs exactly k ToolCallRequest values, one per block and in the
order the blocks appear in the text; and when the response contains zero
such blocks, the response text is returned as-is with no tool invocation
and no follow-up model call. -/
theorem extractor_counts_blocks_in_order (doc : List Seg) (st : ClientState)
    (q : Str) (env : QueryEnv) (sid : Nat)
    (hwf : wfDoc doc) (hs : st.session = some sid)
    (hg : env.generate = Except.ok (render doc))
    (hp : ∀ j ∈ blocksOf doc, isObjV (env.loads j) = true) :
    (processQuery st q env).requests =
      (blocksOf doc).map (fun j => requestOf (env.loads j))
    ∧ (blocksOf doc = [] →
        (processQuery st q env).output = render doc
        ∧ (processQuery st q env).invocations = []
        ∧ (processQuery st q env).followupCalls = 0) := by
  have hext := extraction_complete doc hwf
  cases hb : blocksOf doc with
  | nil =>
    rw [hb] at hext
    rw [processQuery_noBlocks st q env sid (render doc) hs hg hext]
    simp
  | cons b0 bs =>
    rw [hb] at hext
    rw [processQuery_blocks st q env sid (render doc) b0 bs hs hg hext]
    constructor
    · show ((b0 :: bs).map (fun b => (blockOut env b).requests)).flatten = _
      rw [flatten_requests env (b0 :: bs) (by rw [← hb]; exact hp)]
    · intro h
      exact absurd h (by simp)

/-- C2: when the fenced blocks of a rendered response consist of one block
whose text json.loads rejects, amid others that parse as objects,
process_query invokes exactly the well-formed calls, in order, dropping
and duplicating none; reports exactly one extraction failure; and the
malformed block contributes exactly the invalid-format message, in
sequence position, without aborting the remaining blocks. -/
theorem malformed_block_skipped_once (doc : List Seg) (st : ClientState)
    (q : Str) (env : QueryEnv) (sid : Nat) (pre post : List Str) (m : Str)
    (hwf : wfDoc doc) (hs : st.session = some sid)
    (hg : env.generate = Except.ok (render doc))
    (hb : blocksOf doc = pre ++ m :: post)
    (hm : env.loads m = none)
    (hp : ∀ j ∈ pre ++ post, isObjV (env.loads j) = true) :
    (processQuery st q env).invocations =
      (pre ++ post).map (fun j => invocationOf (env.loads j))
    ∧ (processQuery st q env).extractionFailures = 1
    ∧ (processQuery st q env).parts =
        (pre.map (fun b => (blockOut env b).parts)).flatten
          ++ errFormatPart :: (post.map (fun b => (blockOut env b).parts)).flatten := by
  have hext := extraction_complete doc hwf
  rw [hb] at hext
  have hpre : ∀ j ∈ pre, isObjV (env.loads j) = true :=
    fun j hj => hp j (by simp [hj])
  have hpost : ∀ j ∈ post, isObjV (env.loads j) = true :=
    fun j hj => hp j (by simp [hj])
  obtain ⟨b0, bs, hcons⟩ : ∃ b0 bs, pre ++ m :: post = b0 :: bs := by
    cases pre with
    | nil => exact ⟨m, post, rfl⟩
    | cons x xs => exact ⟨x, xs ++ m :: post, rfl⟩
  rw [hcons] at hext
  rw [processQuery_blocks st q env sid (render doc) b0 bs hs hg hext]
  rw [← hcons]
  have hmOut := blockOut_malformed env m hm
  refine ⟨?_, ?_, ?_⟩
  · show ((pre ++ m :: post).map (fun b => (blockOut env b).invocations)).flatten = _
    simp only [List.map_append, List.flatten_append, List.map_cons,
      List.flatten_cons, hmOut]
    rw [flatten_invocations env pre hpre, flatten_invocations env post hpost]
    simp
  · show ((pre ++ m :: post).map (fun b => (blockOut env b).extractionFailures)).sum = 1
    simp only [List.map_append, List.sum_append, List.map_cons,
      List.sum_cons, hmOut]
    rw [sum_fails_zero env pre hpre, sum_fails_zero env post hpost]
    omega
  · show ((pre ++ m :: post).map (fun b => (blockOut env b).parts)).flatten = _
    simp only [List.map_append, List.flatten_append, List.map_cons,
      List.flatten_cons, hmOut]
    simp

/-- C3: when one extracted call raises a tool-execution error, its
localized error string is appended at its position in the accumulated
output and execution continues: every extracted call is still invoked, in
order, and any remaining call whose invocation and follow-up succeed still
contributes its normal result block and narration. -/
theorem tool_error_does_not_abort_batch (doc : List Seg) (st : ClientState)
    (q : Str) (env : QueryEnv) (sid : Nat) (pre post : List Str) (m e : Str)
    (hwf : wfDoc doc) (hs : st.session = some sid)
    (hg : env.generate = Except.ok (render doc))
    (hb : blocksOf doc = pre ++ m :: post)
    (hall : ∀ j ∈ blocksOf doc, isObjV (env.loads j) = true)
    (hmfail : ∀ fields, env.loads m = some (JVal.jobj fields) →
        env.callTool (jGet fields (str "tool_name"))
          ((jGet fields (str "parameters")).getD (JVal.jobj [])) =
          Except.error e) :
    (processQuery st q env).invocations =
      (blocksOf doc).map (fun j => invocationOf (env.loads j))
    ∧ (blockOut env m).parts = [errExecPart e]
    ∧ (processQuery st q env).parts =
        (pre.map (fun b => (blockOut env b).parts)).flatten
          ++ errExecPart e :: (post.map (fun b => (blockOut env b).parts)).flatten
    ∧ (∀ j ∈ post, ∀ fields nm content t,
        env.loads j = some (JVal.jobj fields) →
        jGet fields (str "tool_name") = some (JVal.jstr nm) →
        env.callTool (jGet fields (str "tool_name"))
          ((jGet fields (str "parameters")).getD (JVal.jobj [])) =
          Except.ok content →
        env.followup (some (JVal.jstr nm)) content = Except.ok t →
        (blockOut env j).parts = [resultPart nm content, t]) := by
  have hext := extraction_complete doc hwf
  rw [hb] at hext
  have hmObj : isObjV (env.loads m) = true := by
    apply hall
    rw [hb]
    simp
  obtain ⟨fields, hfields⟩ := (isObjV_iff (env.loads m)).mp hmObj
  have hmParts : (blockOut env m).parts = [errExecPart e] :=
    (blockOut_callFail env m fields e hfields (hmfail fields hfields)).1
  obtain ⟨b0, bs, hcons⟩ : ∃ b0 bs, pre ++ m :: post = b0 :: bs := by
    cases pre with
    | nil => exact ⟨m, post, rfl⟩
    | cons x xs => exact ⟨x, xs ++ m :: post, rfl⟩
  rw [hcons] at hext
  rw [processQuery_blocks st q env sid (render doc) b0 bs hs hg hext]
  rw [← hcons]
  refine ⟨?_, hmParts, ?_, ?_⟩
  · show ((pre ++ m :: post).map (fun b => (blockOut env b).invocations)).flatten = _
    rw [flatten_invocations env (pre ++ m :: post) (by rw [← hb]; exact hall)]
    rw [hb]
  · show ((pre ++ m :: post).map (fun b => (blockOut env b).parts)).flatten = _
    simp only [List.map_append, List.flatten_append, List.map_cons,
      List.flatten_cons, hmParts]
    simp
  · intro j hj fields2 nm content t hl hname hc hfu
    exact (blockOut_callOk env j fields2 nm content t hl hname hc hfu).1

/-!  ## Concrete instances for the extraction claims -/

def c1Doc : List Seg :=
  [Seg.text (str "Let me check. "), Seg.block (str "\x7b\x7d")]

def c1Env : QueryEnv :=
  { generate := Except.ok (render c1Doc),
    loads := fun _ => some (JVal.jobj []),
    callTool := fun _ _ => Except.ok (str "42"),
    followup := fun _ _ => Except.ok (str "The answer is 42.") }

def c1St : ClientState := { initialClientState with session := some 1 }

theorem c1Doc_wf : wfDoc c1Doc := by
  intro s hs
  simp only [c1Doc, List.mem_cons, List.not_mem_nil, or_false] at hs
  rcases hs with rfl | rfl
  · show btick ∉ str "Let me check. "
    decide
  · exact ⟨⟨[], rfl⟩, by decide⟩

theorem extractor_counts_blocks_in_order_witness :
    (processQuery c1St (str "hello") c1Env).requests =
      [⟨none, JVal.jobj []⟩] := by
  have h := (extractor_counts_blocks_in_order c1Doc c1St (str "hello") c1Env 1
    c1Doc_wf rfl rfl (fun j _ => rfl)).1
  rw [h]
  rfl

def c2Doc : List Seg :=
  [Seg.block (str "\x7b\x7d"), Seg.text (str " and then "),
   Seg.block (str "\x7bx\x7d")]

def c2Env : QueryEnv :=
  { generate := Except.ok (render c2Doc),
    loads := fun j =>
      if j = str "\x7b\x7d" then
        some (JVal.jobj [(str "tool_name", JVal.jstr (str "t"))])
      else none,
    callTool := fun _ _ => Except.ok (str "ok"),
    followup := fun _ _ => Except.ok (str "done") }

def c2St : ClientState := { initialClientState with session := some 1 }

theorem c2Doc_wf : wfDoc c2Doc := by
  intro s hs
  simp only [c2Doc, List.mem_cons, List.not_mem_nil, or_false] at hs
  rcases hs with rfl | rfl | rfl
  · exact ⟨⟨[], rfl⟩, by decide⟩
  · show btick ∉ str " and then "
    decide
  · exact ⟨⟨['x'], rfl⟩, by decide⟩

theorem malformed_block_skipped_once_witness :
    (processQuery c2St (str "go") c2Env).invocations =
      [(some (JVal.jstr (str "t")), JVal.jobj [])]
    ∧ (processQuery c2St (str "go") c2Env).extractionFailures = 1 := by
  have h := malformed_block_skipped_once c2Doc c2St (str "go") c2Env 1
    [str "\x7b\x7d"] [] (str "\x7bx\x7d") c2Doc_wf rfl rfl (by rfl)
    (by rfl)
    (by
      intro j hj
      simp only [List.append_nil, List.mem_singleton] at hj
      subst hj
      rfl)
  refine ⟨?_, h.2.1⟩
  rw [h.1]
  rfl

def c3Doc : List Seg :=
  [Seg.block (str "\x7ba\x7d"), Seg.block (str "\x7bb\x7d")]

def c3Env : QueryEnv :=
  { generate := Except.ok (render c3Doc),
    loads := fun j =>
      if j = str "\x7ba\x7d" then
        some (JVal.jobj [(str "tool_name", JVal.jstr (str "t1"))])
      else some (JVal.jobj [(str "tool_name", JVal.jstr (str "t2"))]),
    callTool := fun n _ =>
      match n with
      | some (JVal.jstr s) =>
          if s = str "t1" then Except.error (str "boom")
          else Except.ok (str "ok")
      | _ => Except.ok (str "ok"),
    followup := fun _ _ => Except.ok (str "narration") }

def c3St : ClientState := { initialClientState with session := some 1 }

theorem c3Doc_wf : wfDoc c3Doc := by
  intro s hs
  simp only [c3Doc, List.mem_cons, List.not_mem_nil, or_false] at hs
  rcases hs with rfl | rfl
  · exact ⟨⟨['a'], rfl⟩, by decide⟩
  · exact ⟨⟨['b'], rfl⟩, by decide⟩

theorem tool_error_does_not_abort_batch_witness :
    (processQuery c3St (str "go") c3Env).invocations =
      [(some (JVal.jstr (str "t1")), JVal.jobj []),
       (some (JVal.jstr (str "t2")), JVal.jobj [])]
    ∧ (processQuery c3St (str "go") c3Env).parts =
      [errExecPart (str "boom"),
       resultPart (str "t2") (str "ok"), str "narration"] := by
  have h := tool_error_does_not_abort_batch c3Doc c3St (str "go") c3Env 1
    [] [str "\x7bb\x7d"] (str "\x7ba\x7d") (str "boom") c3Doc_wf rfl rfl
    (by decide)
    (by
      intro j hj
      have hbl : blocksOf c3Doc = [str "\x7ba\x7d", str "\x7bb\x7d"] := rfl
      rw [hbl] at hj
      simp only [List.mem_cons, List.not_mem_nil, or_false] at hj
      rcases hj with rfl | rfl
      · rfl
      · rfl)
    (by
      intro fields hf
      have h0 : c3Env.loads (str "\x7ba\x7d") =
          some (JVal.jobj [(str "tool_name", JVal.jstr (str "t1"))]) := by rfl
      rw [h0] at hf
      injection hf with hf1
      injection hf1 with hf2
      subst hf2
      rfl)
  refine ⟨?_, ?_⟩
  · rw [h.1]
    rfl
  · rw [h.2.2.1]
    have hpost : (blockOut c3Env (str "\x7bb\x7d")).parts =
        [resultPart (str "t2") (str "ok"), str "narration"] := by
      exact (blockOut_callOk c3Env (str "\x7bb\x7d")
        [(str "tool_name", JVal.jstr (str "t2"))]
        (str "t2") (str "ok") (str "narration") rfl rfl rfl rfl).1
    simp [hpost]

/-!  ## C4: generation failure and conversation-history consistency -/

def c4St : ClientState := { initialClientState with session := some 1 }

def c4Env : QueryEnv :=
  { generate := Except.error (str "rate limited"),
    loads := fun _ => none,
    callTool := fun _ _ => Except.ok (str ""),
    followup := fun _ _ => Except.ok (str "") }

/-- C4 counterexample: after a failed generation, process_query leaves the
just-appended user Turn as the final history entry, with no resolution and
no marker, even though the error is reported in the returned text. -/
theorem generation_failure_orphans_user_turn :
    (processQuery c4St (str "hi") c4Env).state.chatHistory =
      [⟨Role.user, [str "hi"]⟩]
    ∧ ((processQuery c4St (str "hi") c4Env).state.chatHistory.getLast?).map
        Turn.role = some Role.user
    ∧ (processQuery c4St (str "hi") c4Env).output =
        str "Error processing query: " ++ str "rate limited" :=
  ⟨rfl, rfl, rfl⟩

/-- C4 amended: when generation fails, both query paths report the error
as a user-visible message and make no tool invocation, but the
conversation history retains the just-appended user Turn as its
unresolved, unmarked final entry. -/
theorem generation_failure_reported_but_turn_unresolved
    (st : ClientState) (q : Str) (env : QueryEnv) (sid : Nat) (e e2 : Str)
    (hs : st.session = some sid) (hg : env.generate = Except.error e) :
    (processQuery st q env).output = str "Error processing query: " ++ e
    ∧ (processQuery st q env).state.chatHistory =
        st.chatHistory ++ [⟨Role.user, [q]⟩]
    ∧ (processQuery st q env).invocations = []
    ∧ (chatWithGemini st q (Except.error e2)).2 = str "Error: " ++ e2
    ∧ (chatWithGemini st q (Except.error e2)).1.chatHistory =
        st.chatHistory ++ [⟨Role.user, [q]⟩] := by
  rw [processQuery_genError st q env sid e hs hg]
  exact ⟨rfl, rfl, rfl, rfl, rfl⟩

theorem generation_failure_reported_but_turn_unresolved_witness :
    (processQuery c4St (str "hi") c4Env).output =
      str "Error processing query: " ++ str "rate limited"
    ∧ (processQuery c4St (str "hi") c4Env).state.chatHistory =
        c4St.chatHistory ++ [⟨Role.user, [str "hi"]⟩] := by
  have h := generation_failure_reported_but_turn_unresolved c4St (str "hi")
    c4Env 1 (str "rate limited") (str "x") rfl rfl
  exact ⟨h.1, h.2.1⟩

/-!  ## C5: connect while a connection is active -/

def c5St1 : ClientState :=
  (connectToServer initialClientState (str "a.py") 1
    ConnectStep.success [str "t"]).1

def c5St2 : ClientState :=
  (connectToServer c5St1 (str "b.py") 2 ConnectStep.success [str "u"]).1

/-- C5 counterexample: after a second successful connect the client
references only the new session, but the transport and session contexts of
the first connection are still held on the exit stack — the prior
connection is not released and its handles remain until shutdown. -/
theorem second_connect_leaks_prior_connection :
    c5St2.session = some 2
    ∧ c5St2.exitStackConns = [1, 1, 2, 2]
    ∧ 1 ∈ c5St2.exitStackConns :=
  ⟨rfl, rfl, by decide⟩

/-- C5 amended: a successful connect replaces the session reference with
the new connection, but the previously entered contexts stay on the shared
exit stack, which is only emptied by cleanup at shutdown. -/
theorem connect_replaces_session_but_retains_prior_handles
    (st : ClientState) (path : Str) (cid : Nat) (tools : List Str)
    (hext : endsWith (str ".py") path = true
            ∨ endsWith (str ".js") path = true) :
    (connectToServer st path cid ConnectStep.success tools).1.session =
      some cid
    ∧ (connectToServer st path cid ConnectStep.success tools).1.exitStackConns =
        st.exitStackConns ++ [cid, cid]
    ∧ (connectToServer st path cid ConnectStep.success tools).2 =
        ConnectResult.connected tools
    ∧ (cleanup
        (connectToServer st path cid ConnectStep.success tools).1).exitStackConns
        = [] := by
  have horb : (endsWith (str ".py") path || endsWith (str ".js") path) = true := by
    rcases hext with h | h <;> simp [h]
  unfold connectToServer
  rw [if_neg (not_not_intro horb)]
  exact ⟨rfl, rfl, rfl, rfl⟩

theorem connect_replaces_session_but_retains_prior_handles_witness :
    c5St2.session = some 2
    ∧ c5St2.exitStackConns = c5St1.exitStackConns ++ [2, 2] := by
  have h := connect_replaces_session_but_retains_prior_handles c5St1
    (str "b.py") 2 [str "u"] (Or.inl (by decide))
  exact ⟨h.1, h.2.1⟩

/-!  ## C8: missing credential at startup -/

/-- C8: with the API key absent from the environment, the client
constructor exits with code 1, so main never reaches the interactive chat
loop: no prompt is shown and no client state is created. -/
theorem missing_api_key_fatal_before_prompt :
    napierMain none = MainOutcome.exited 1
    ∧ clientInit none = Except.error 1 :=
  ⟨rfl, rfl⟩

/-!  ## C9: playwright connect triggers the install hook -/

/-- C9: connecting through the registry to a server whose lowered logical
name is playwright performs, after session initialization and tool
enumeration and before returning (hence before any tool of the session can
be invoked), the one-time browser-install preparation step. -/
theorem playwright_connect_triggers_install
    (st : ClientState) (n : Str) (cfg : ServerConfig) (cid : Nat)
    (tools : List Str) (hp : pyLower n = str "playwright") :
    (connectToServerFromConfig st n (some cfg) cid
        ConnectStep.success tools).2.2 =
      [Event.sessionStarted cid, Event.toolsEnumerated,
       Event.playwrightInstall]
    ∧ (connectToServerFromConfig st n (some cfg) cid
        ConnectStep.success tools).2.1 = ConnectResult.connected tools := by
  unfold connectToServerFromConfig
  simp [hp]

theorem playwright_connect_triggers_install_witness :
    (connectToServerFromConfig initialClientState (str "Playwright")
        (some ⟨str "npx", []⟩) 7 ConnectStep.success
        [str "browser_navigate"]).2.2 =
      [Event.sessionStarted 7, Event.toolsEnumerated,
       Event.playwrightInstall] :=
  (playwright_connect_triggers_install initialClientState (str "Playwright")
    ⟨str "npx", []⟩ 7 [str "browser_navigate"] (by decide)).1

/-!  ## C10: connected_server assignment versus validation -/

/-- C10 counterexample: a registry connect to an unknown name performs its
lookup validation before any assignment, so connected_server is not set to
the requested target — the client state is entirely unchanged. -/
theorem config_lookup_precedes_connected_server_assignment :
    (connectToServerFromConfig initialClientState (str "ghost") none 1
        ConnectStep.success []).1.connectedServer = none
    ∧ ¬((connectToServerFromConfig initialClientState (str "ghost") none 1
        ConnectStep.success []).1.connectedServer = some (str "ghost"))
    ∧ (connectToServerFromConfig initialClientState (str "ghost") none 1
        ConnectStep.success []).1 = initialClientState
    ∧ (connectToServerFromConfig initialClientState (str "ghost") none 1
        ConnectStep.success []).2.1 = ConnectResult.failed :=
  ⟨rfl, by decide, rfl, rfl⟩

/-- C10 amended: for script-path connects, connected_server is assigned
before the extension validation and before connection establishment, so
both a validation failure and a transport failure leave connected_server
naming the failed target with the session unchanged; for registry
connects, an unknown name leaves the whole state untouched, while a
post-lookup transport failure again leaves connected_server naming the
failed target with the session unchanged — a failed connect is not atomic
with respect to the visible client state. -/
theorem connected_server_assignment_not_atomic
    (st : ClientState) (path p2 n : Str) (cid : Nat) (step : ConnectStep)
    (tools : List Str) (cfg : ServerConfig)
    (hbadpy : endsWith (str ".py") path = false)
    (hbadjs : endsWith (str ".js") path = false)
    (hp2 : endsWith (str ".py") p2 = true) :
    connectToServer st path cid step tools =
      ({ st with connectedServer := some path }, ConnectResult.valueError)
    ∧ connectToServer st p2 cid ConnectStep.transportFail tools =
        ({ st with connectedServer := some p2 }, ConnectResult.failed)
    ∧ connectToServerFromConfig st n none cid step tools =
        (st, ConnectResult.failed, [])
    ∧ connectToServerFromConfig st n (some cfg) cid
        ConnectStep.transportFail tools =
        ({ st with connectedServer := some n }, ConnectResult.failed, []) := by
  refine ⟨?_, ?_, rfl, rfl⟩
  · unfold connectToServer
    rw [if_pos (by simp [hbadpy, hbadjs])]
  · unfold connectToServer
    rw [if_neg (not_not_intro (by simp [hp2]))]

theorem connected_server_assignment_not_atomic_witness :
    connectToServer initialClientState (str "server.txt") 3
        ConnectStep.success [] =
      ({ initialClientState with connectedServer := some (str "server.txt") },
       ConnectResult.valueError)
    ∧ connectToServer initialClientState (str "srv.py") 3
        ConnectStep.transportFail [] =
        ({ initialClientState with connectedServer := some (str "srv.py") },
         ConnectResult.failed) := by
  have h := connected_server_assignment_not_atomic initialClientState
    (str "server.txt") (str "srv.py") (str "ghost") 3 ConnectStep.success []
    ⟨str "node", []⟩ (by decide) (by decide) (by decide)
  exact ⟨h.1, h.2.1⟩

/-!  ## Sanitizer theory for the idempotence and truncation claims

hasTriple detects a run of three backticks anywhere in a string; it is the
applicability condition of both re.sub substitutions of
_clean_tool_output.  Text already cleaned by sub2 never contains such a
run, which drives the idempotence argument. -/

def hasTriple (s : Str) : Bool :=
  match s with
  | [] => false
  | c :: cs => (str "```").isPrefixOf (c :: cs) || hasTriple cs

theorem isPrefixOf_mono (p q s : Str)
    (h : (p ++ q).isPrefixOf s = true) : p.isPrefixOf s = true := by
  induction p generalizing s with
  | nil => simp [List.isPrefixOf]
  | cons c cs ih =>
    cases s with
    | nil => simp [List.isPrefixOf] at h
    | cons d ds =>
      rw [List.cons_append] at h
      simp only [List.isPrefixOf, Bool.and_eq_true] at h ⊢
      exact ⟨h.1, ih ds h.2⟩

theorem isPrefixOf_extend (p xs ys : Str)
    (h : p.isPrefixOf xs = true) : p.isPrefixOf (xs ++ ys) = true := by
  induction p generalizing xs with
  | nil => simp [List.isPrefixOf]
  | cons c cs ih =>
    cases xs with
    | nil => simp [List.isPrefixOf] at h
    | cons d ds =>
      rw [List.cons_append]
      simp only [List.isPrefixOf, Bool.and_eq_true] at h ⊢
      exact ⟨h.1, ih ds h.2⟩

theorem hasTriple_cons_false {c : Char} {cs : Str}
    (h : hasTriple (c :: cs) = false) :
    (str "```").isPrefixOf (c :: cs) = false ∧ hasTriple cs = false := by
  rw [hasTriple] at h
  exact Bool.or_eq_false_iff.mp h

theorem sub1_eq_self (s : Str) (h : hasTriple s = false) : sub1 s = s := by
  induction s with
  | nil => rw [sub1]
  | cons c cs ih =>
    obtain ⟨h1, h2⟩ := hasTriple_cons_false h
    have hh : ∀ tagStr : Str,
        (str "```" ++ tagStr).isPrefixOf (c :: cs) = false := by
      intro tagStr
      cases hx : (str "```" ++ tagStr).isPrefixOf (c :: cs)
      · rfl
      · exact absurd (isPrefixOf_mono _ _ _ hx) (by simp [h1])
    have e1 : (str "```html\n").isPrefixOf (c :: cs) = false := by
      have heq : str "```html\n" = str "```" ++ str "html\n" := by decide
      rw [heq]; exact hh (str "html\n")
    have e2 : (str "```xml\n").isPrefixOf (c :: cs) = false := by
      have heq : str "```xml\n" = str "```" ++ str "xml\n" := by decide
      rw [heq]; exact hh (str "xml\n")
    have e3 : (str "```markdown\n").isPrefixOf (c :: cs) = false := by
      have heq : str "```markdown\n" = str "```" ++ str "markdown\n" := by decide
      rw [heq]; exact hh (str "markdown\n")
    have e4 : (str "```\n").isPrefixOf (c :: cs) = false := by
      have heq : str "```\n" = str "```" ++ str "\n" := by decide
      rw [heq]; exact hh (str "\n")
    rw [sub1]
    simp [e1, e2, e3, e4, ih h2]

theorem sub2_eq_self (s : Str) (h : hasTriple s = false) : sub2 s = s := by
  induction s with
  | nil => rw [sub2]
  | cons c cs ih =>
    obtain ⟨h1, h2⟩ := hasTriple_cons_false h
    rw [sub2]
    simp [h1, ih h2]

theorem sub2_no_lead_single (s : Str)
    (h : (str "`").isPrefixOf s = false) :
    (str "`").isPrefixOf (sub2 s) = false := by
  cases s with
  | nil => rw [sub2]; exact h
  | cons c cs =>
    have hcb : ('`' == c) = false := by
      have h' : (('`' == c) && List.isPrefixOf ([] : Str) cs) = false := h
      simpa using h'
    have hp3 : (str "```").isPrefixOf (c :: cs) = false := by
      show (('`' == c) && _) = false
      simp [hcb]
    rw [sub2, if_neg (by simp [hp3])]
    show (('`' == c) && List.isPrefixOf ([] : Str) (sub2 cs)) = false
    simp [hcb]

theorem sub2_no_lead_double (s : Str)
    (h : (str "``").isPrefixOf s = false) :
    (str "``").isPrefixOf (sub2 s) = false := by
  cases s with
  | nil => rw [sub2]; exact h
  | cons c cs =>
    have h' : (('`' == c) && (str "`").isPrefixOf cs) = false := h
    by_cases hcb : ('`' == c) = true
    · have hcs : (str "`").isPrefixOf cs = false := by
        cases hx : (str "`").isPrefixOf cs
        · rfl
        · exfalso; rw [hcb, hx] at h'; simp at h'
      have hcs2 : (str "``").isPrefixOf cs = false := by
        cases hx : (str "``").isPrefixOf cs
        · rfl
        · exfalso
          have hm := isPrefixOf_mono (str "`") (str "`") cs (by
            rw [show str "`" ++ str "`" = str "``" from rfl]; exact hx)
          rw [hm] at hcs
          cases hcs
      have hp3 : (str "```").isPrefixOf (c :: cs) = false := by
        show (('`' == c) && (str "``").isPrefixOf cs) = false
        simp [hcs2]
      rw [sub2, if_neg (by simp [hp3])]
      show (('`' == c) && (str "`").isPrefixOf (sub2 cs)) = false
      simp [sub2_no_lead_single cs hcs]
    · have hcbf : ('`' == c) = false := Bool.eq_false_iff.mpr hcb
      have hp3 : (str "```").isPrefixOf (c :: cs) = false := by
        show (('`' == c) && _) = false
        simp [hcbf]
      rw [sub2, if_neg (by simp [hp3])]
      show (('`' == c) && _) = false
      simp [hcbf]

theorem hasTriple_sub2 (s : Str) : hasTriple (sub2 s) = false := by
  induction s using sub2.induct with
  | case1 => rw [sub2]; rfl
  | case2 c cs hpre ih =>
    rw [sub2, if_pos hpre]
    exact ih
  | case3 c cs hpre ih =>
    rw [sub2, if_neg hpre]
    rw [hasTriple]
    have hp : (str "```").isPrefixOf (c :: sub2 cs) = false := by
      by_cases hcb : ('`' == c) = true
      · have hcs : (str "``").isPrefixOf cs = false := by
          cases hx : (str "``").isPrefixOf cs
          · rfl
          · exfalso
            apply hpre
            show (('`' == c) && (str "``").isPrefixOf cs) = true
            rw [hcb, hx]
            rfl
        have hd := sub2_no_lead_double cs hcs
        show (('`' == c) && (str "``").isPrefixOf (sub2 cs)) = false
        simp [hd]
      · have hcbf : ('`' == c) = false := Bool.eq_false_iff.mpr hcb
        show (('`' == c) && _) = false
        simp [hcbf]
    simp [hp, ih]

theorem hasTriple_append_left (xs ys : Str)
    (h : hasTriple (xs ++ ys) = false) : hasTriple xs = false := by
  induction xs with
  | nil => rfl
  | cons c cs ih =>
    rw [List.cons_append, hasTriple] at h
    obtain ⟨h1, h2⟩ := Bool.or_eq_false_iff.mp h
    rw [hasTriple]
    have h1' : (str "```").isPrefixOf (c :: cs) = false := by
      cases hx : (str "```").isPrefixOf (c :: cs)
      · rfl
      · have := isPrefixOf_extend (str "```") (c :: cs) ys hx
        rw [List.cons_append] at this
        rw [this] at h1
        cases h1
    simp [h1', ih h2]

theorem hasTriple_append_right (xs ys : Str)
    (h : hasTriple (xs ++ ys) = false) : hasTriple ys = false := by
  induction xs with
  | nil => exact h
  | cons c cs ih =>
    rw [List.cons_append, hasTriple] at h
    exact ih (Bool.or_eq_false_iff.mp h).2

theorem dropWhile_suffix_ex (p : Char → Bool) (m : Str) :
    ∃ u, m = u ++ m.dropWhile p := by
  induction m with
  | nil => exact ⟨[], rfl⟩
  | cons c cs ih =>
    by_cases hc : p c = true
    · obtain ⟨u, hu⟩ := ih
      exact ⟨c :: u, by rw [List.dropWhile_cons_of_pos hc, List.cons_append, ← hu]⟩
    · exact ⟨[], by rw [List.dropWhile_cons_of_neg hc, List.nil_append]⟩

theorem stripTrail_prefix_ex (l : Str) : ∃ t, l = stripTrail l ++ t := by
  obtain ⟨u, hu⟩ := dropWhile_suffix_ex isWs l.reverse
  refine ⟨u.reverse, ?_⟩
  unfold stripTrail
  calc l = l.reverse.reverse := by rw [List.reverse_reverse]
    _ = (u ++ l.reverse.dropWhile isWs).reverse := by rw [← hu]
    _ = (l.reverse.dropWhile isWs).reverse ++ u.reverse := by
          rw [List.reverse_append]

theorem hasTriple_pyStrip (x : Str) (h : hasTriple x = false) :
    hasTriple (pyStrip x) = false := by
  obtain ⟨u, hu⟩ := dropWhile_suffix_ex isWs x
  have hlead : hasTriple (stripLead x) = false := by
    apply hasTriple_append_right u (stripLead x)
    rw [show u ++ stripLead x = x from hu.symm]
    exact h
  obtain ⟨t, ht⟩ := stripTrail_prefix_ex (stripLead x)
  apply hasTriple_append_left (pyStrip x) t
  rw [show pyStrip x ++ t = stripLead x from ht.symm]
  exact hlead

theorem dropWhile_idem (p : Char → Bool) (l : Str) :
    (l.dropWhile p).dropWhile p = l.dropWhile p := by
  induction l with
  | nil => rfl
  | cons c cs ih =>
    by_cases hc : p c = true
    · rw [List.dropWhile_cons_of_pos hc, ih]
    · rw [List.dropWhile_cons_of_neg hc, List.dropWhile_cons_of_neg hc]

theorem stripTrail_idem (l : Str) : stripTrail (stripTrail l) = stripTrail l := by
  unfold stripTrail
  rw [List.reverse_reverse, dropWhile_idem]

theorem head_dropWhile_not (p : Char → Bool) (l : Str) (c : Char)
    (h : (l.dropWhile p).head? = some c) : p c = false := by
  induction l with
  | nil => cases h
  | cons d ds ih =>
    by_cases hd : p d = true
    · rw [List.dropWhile_cons_of_pos hd] at h
      exact ih h
    · rw [List.dropWhile_cons_of_neg hd] at h
      injection h with h'
      rw [← h']
      exact Bool.eq_false_iff.mpr hd

theorem stripLead_of_pyStrip (l : Str) : stripLead (pyStrip l) = pyStrip l := by
  show stripLead (stripTrail (stripLead l)) = stripTrail (stripLead l)
  obtain ⟨t, hmt⟩ := stripTrail_prefix_ex (stripLead l)
  cases hsm : stripTrail (stripLead l) with
  | nil => rfl
  | cons c cs =>
    have hc : isWs c = false := by
      apply head_dropWhile_not isWs l c
      show (l.dropWhile isWs).head? = some c
      have : stripLead l = (c :: cs) ++ t := by rw [← hsm]; exact hmt
      rw [show l.dropWhile isWs = stripLead l from rfl, this]
      rfl
    show stripLead (c :: cs) = c :: cs
    unfold stripLead
    rw [List.dropWhile_cons_of_neg (by simp [hc])]

theorem pyStrip_idem (l : Str) : pyStrip (pyStrip l) = pyStrip l := by
  show stripTrail (stripLead (pyStrip l)) = pyStrip l
  rw [stripLead_of_pyStrip]
  show stripTrail (stripTrail (stripLead l)) = pyStrip l
  rw [stripTrail_idem]
  rfl

theorem dropWhile_length_eq_self (p : Char → Bool) (l : Str)
    (h : (l.dropWhile p).length = l.length) : l.dropWhile p = l := by
  induction l with
  | nil => rfl
  | cons c cs ih =>
    by_cases hc : p c = true
    · exfalso
      rw [List.dropWhile_cons_of_pos hc] at h
      have := length_dropWhile_le p cs
      simp only [List.length_cons] at h
      omega
    · rw [List.dropWhile_cons_of_neg hc]

theorem stripTrail_length_le (l : Str) : (stripTrail l).length ≤ l.length := by
  unfold stripTrail
  rw [List.length_reverse]
  have := length_dropWhile_le isWs l.reverse
  rw [List.length_reverse] at this
  exact this

theorem stripLead_eq_self_of_pyStrip (x : Str) (h : pyStrip x = x) :
    stripLead x = x := by
  have h1 : (pyStrip x).length ≤ (x.dropWhile isWs).length :=
    stripTrail_length_le (stripLead x)
  have h2 : (x.dropWhile isWs).length ≤ x.length := length_dropWhile_le _ _
  have h3 : (pyStrip x).length = x.length := by rw [h]
  exact dropWhile_length_eq_self isWs x (by omega)

theorem head_not_ws_of_stripLead_eq {c : Char} {cs : Str}
    (h : stripLead (c :: cs) = c :: cs) : isWs c = false := by
  by_cases hc : isWs c = true
  · exfalso
    unfold stripLead at h
    rw [List.dropWhile_cons_of_pos hc] at h
    have hle := length_dropWhile_le isWs cs
    have := congrArg List.length h
    simp only [List.length_cons] at this
    omega
  · exact Bool.eq_false_iff.mpr hc

/-- The content-extraction arm of _clean_tool_output (lines 424-433):
strip, truncate past 1000 characters, and replace a whitespace-only result
by the fixed completion marker. -/
def contentClean (x : Str) : Str :=
  let o := pyStrip (sub2 (sub1 x))
  let o2 := if 1000 < o.length then o.take 997 ++ str "..." else o
  if (pyStrip o2).length = 0 then str "Operation completed successfully."
  else o2

theorem cleanToolOutput_getContent (t x : Str)
    (hpw : containsSub (str "playwright") (pyLower t) = true)
    (hss : containsSub (str "screenshot") (pyLower t) = false)
    (hnav : containsSub (str "navigate") (pyLower t) = false)
    (hgo : containsSub (str "goto") (pyLower t) = false)
    (hck : containsSub (str "click") (pyLower t) = false)
    (hgc : (containsSub (str "get") (pyLower t)
            && containsSub (str "content") (pyLower t)) = true) :
    cleanToolOutput t x = contentClean x := by
  unfold cleanToolOutput contentClean
  rw [if_pos hpw, if_neg (by simp [hss]), if_neg (by simp [hnav, hgo]),
      if_neg (by simp [hck])]
  dsimp only
  rw [if_pos hgc]

/-- The remaining playwright arm of _clean_tool_output (lines 431-433). -/
def otherClean (x : Str) : Str :=
  let o1 := sub2 (sub1 x)
  if (pyStrip o1).length = 0 then str "Operation completed successfully."
  else o1

theorem cleanToolOutput_otherPw (t x : Str)
    (hpw : containsSub (str "playwright") (pyLower t) = true)
    (hss : containsSub (str "screenshot") (pyLower t) = false)
    (hnav : containsSub (str "navigate") (pyLower t) = false)
    (hgo : containsSub (str "goto") (pyLower t) = false)
    (hck : containsSub (str "click") (pyLower t) = false)
    (hgc : (containsSub (str "get") (pyLower t)
            && containsSub (str "content") (pyLower t)) = false) :
    cleanToolOutput t x = otherClean x := by
  unfold cleanToolOutput otherClean
  rw [if_pos hpw, if_neg (by simp [hss]), if_neg (by simp [hnav, hgo]),
      if_neg (by simp [hck])]
  dsimp only
  rw [if_neg (show ¬((containsSub (str "get") (pyLower t)
      && containsSub (str "content") (pyLower t)) = true) by simp [hgc])]

/-!  ## C6: truncation boundary of content extraction -/

set_option maxRecDepth 40000 in
/-- C6 counterexample: a playwright content-extraction output of exactly
1000 characters that is all whitespace is not returned unmodified; the
sanitizer strips it to emptiness and substitutes the completion marker. -/
theorem thousand_char_output_can_be_modified :
    cleanToolOutput (str "playwright_get_content") (List.replicate 1000 ' ')
      = str "Operation completed successfully."
    ∧ (List.replicate 1000 ' ' : Str).length = 1000
    ∧ cleanToolOutput (str "playwright_get_content") (List.replicate 1000 ' ')
      ≠ List.replicate 1000 ' ' := by
  have hsp : hasTriple (List.replicate 1000 ' ') = false := by decide
  have hbr := cleanToolOutput_getContent (str "playwright_get_content")
    (List.replicate 1000 ' ') (by decide) (by decide) (by decide) (by decide)
    (by decide) (by decide)
  have hsx : sub2 (sub1 (List.replicate 1000 ' ')) = List.replicate 1000 ' ' := by
    rw [sub1_eq_self _ hsp, sub2_eq_self _ hsp]
  have hps : pyStrip (List.replicate 1000 ' ') = [] := by decide
  have hval : cleanToolOutput (str "playwright_get_content")
      (List.replicate 1000 ' ') = str "Operation completed successfully." := by
    rw [hbr]
    unfold contentClean
    dsimp only
    rw [hsx, hps]
    rw [if_neg (show ¬(1000 < ([] : Str).length) by simp)]
    rw [if_pos (show (pyStrip ([] : Str)).length = 0 from rfl)]
  refine ⟨hval, by simp, ?_⟩
  rw [hval]
  decide

/-- C6 amended: for a playwright content-extraction tool, an output that
is already clean — no triple-backtick run and no leading or trailing
whitespace — of exactly 1000 characters is returned unmodified, and such
an output of 1001 characters is truncated to its first 997 characters
plus the 3-character marker, totalling exactly 1000 characters. -/
theorem truncation_boundary_on_clean_output (t x : Str)
    (hpw : containsSub (str "playwright") (pyLower t) = true)
    (hss : containsSub (str "screenshot") (pyLower t) = false)
    (hnav : containsSub (str "navigate") (pyLower t) = false)
    (hgo : containsSub (str "goto") (pyLower t) = false)
    (hck : containsSub (str "click") (pyLower t) = false)
    (hgc : (containsSub (str "get") (pyLower t)
            && containsSub (str "content") (pyLower t)) = true)
    (hclean : hasTriple x = false)
    (hstrip : pyStrip x = x) :
    (x.length = 1000 → cleanToolOutput t x = x)
    ∧ (x.length = 1001 →
        cleanToolOutput t x = x.take 997 ++ str "..."
        ∧ (cleanToolOutput t x).length = 1000) := by
  have hbr := cleanToolOutput_getContent t x hpw hss hnav hgo hck hgc
  have hsx : sub2 (sub1 x) = x := by
    rw [sub1_eq_self x hclean, sub2_eq_self x hclean]
  constructor
  · intro hlen
    rw [hbr]
    unfold contentClean
    dsimp only
    rw [hsx, hstrip]
    rw [if_neg (show ¬(1000 < x.length) by omega)]
    rw [hstrip, if_neg (show ¬(x.length = 0) by omega)]
  · intro hlen
    have hcx : ∃ c x', x = c :: x' := by
      cases x with
      | nil => simp at hlen
      | cons c x' => exact ⟨c, x', rfl⟩
    obtain ⟨c, x', rfl⟩ := hcx
    have hcns : isWs c = false :=
      head_not_ws_of_stripLead_eq (stripLead_eq_self_of_pyStrip _ hstrip)
    have htake : (c :: x').take 997 = c :: x'.take 996 := rfl
    have hstripO : pyStrip ((c :: x').take 997 ++ str "...") =
        (c :: x').take 997 ++ str "..." := by
      show stripTrail (stripLead _) = _
      have hlead : stripLead ((c :: x').take 997 ++ str "...") =
          (c :: x').take 997 ++ str "..." := by
        rw [htake]
        show List.dropWhile isWs (c :: (x'.take 996 ++ str "...")) = _
        rw [List.dropWhile_cons_of_neg (by simp [hcns])]
        rfl
      rw [hlead]
      have hsplit : (c :: x').take 997 ++ str "..." =
          ((c :: x').take 997 ++ str "..") ++ ['.'] := by
        simp [str, List.append_assoc]
      rw [hsplit, stripTrail_concat_nonws _ _ (by decide), ← hsplit]
    have hlenO : ((c :: x').take 997 ++ str "...").length = 1000 := by
      rw [List.length_append, List.length_take]
      simp only [hlen]
      decide
    have hval : cleanToolOutput t (c :: x') = (c :: x').take 997 ++ str "..." := by
      rw [hbr]
      unfold contentClean
      dsimp only
      rw [hsx, hstrip]
      rw [if_pos (show 1000 < (c :: x').length by omega)]
      rw [if_neg (show ¬((pyStrip ((c :: x').take 997 ++ str "...")).length = 0)
        by rw [hstripO, hlenO]; omega)]
    exact ⟨hval, by rw [hval, hlenO]⟩

set_option maxRecDepth 40000 in
theorem truncation_boundary_on_clean_output_witness :
    cleanToolOutput (str "playwright_get_content") (List.replicate 1001 'a')
      = (List.replicate 1001 'a' : Str).take 997 ++ str "..."
    ∧ (cleanToolOutput (str "playwright_get_content")
        (List.replicate 1001 'a')).length = 1000 := by
  have h := truncation_boundary_on_clean_output
    (str "playwright_get_content") (List.replicate 1001 'a')
    (by decide) (by decide) (by decide) (by decide) (by decide) (by decide)
    (by decide) (by decide)
  exact h.2 (by simp)

/-!  ## C7: idempotence of the sanitizer -/

/-- Whether _clean_tool_output applied to tool name t and raw output x
reaches the truncation branch: the name selects the playwright
content-extraction arm and the stripped cleaned output exceeds 1000
characters. -/
def truncates (t x : Str) : Bool :=
  containsSub (str "playwright") (pyLower t)
  && !containsSub (str "screenshot") (pyLower t)
  && !(containsSub (str "navigate") (pyLower t)
       || containsSub (str "goto") (pyLower t))
  && !containsSub (str "click") (pyLower t)
  && (containsSub (str "get") (pyLower t)
      && containsSub (str "content") (pyLower t))
  && decide (1000 < (pyStrip (sub2 (sub1 x))).length)

theorem contentClean_fixed (y : Str) (hty : hasTriple y = false)
    (hsy : pyStrip y = y) (hly : ¬(1000 < y.length)) (hny : ¬(y.length = 0)) :
    contentClean y = y := by
  unfold contentClean
  dsimp only
  rw [sub1_eq_self y hty, sub2_eq_self y hty, hsy]
  rw [if_neg hly]
  rw [hsy, if_neg hny]

theorem marker_clean_facts :
    hasTriple (str "Operation completed successfully.") = false
    ∧ pyStrip (str "Operation completed successfully.") =
        str "Operation completed successfully."
    ∧ ¬(1000 < (str "Operation completed successfully.").length)
    ∧ ¬((str "Operation completed successfully.").length = 0) := by
  refine ⟨by decide, by decide, by decide, by decide⟩

/-- C7: the sanitizer is a pure function of the tool name and raw output,
modelled as such, and is idempotent whenever the first application does
not reach the truncation branch. -/
theorem sanitizer_idempotent_without_truncation (t x : Str)
    (h : truncates t x = false) :
    cleanToolOutput t (cleanToolOutput t x) = cleanToolOutput t x := by
  by_cases hpw : containsSub (str "playwright") (pyLower t) = true
  · by_cases hss : containsSub (str "screenshot") (pyLower t) = true
    · have hconst : ∀ y, cleanToolOutput t y =
          str "Screenshot captured successfully." := by
        intro y
        unfold cleanToolOutput
        rw [if_pos hpw, if_pos hss]
      rw [hconst, hconst]
    · by_cases hnav : (containsSub (str "navigate") (pyLower t)
          || containsSub (str "goto") (pyLower t)) = true
      · have hconst : ∀ y, cleanToolOutput t y =
            str "Navigated to the requested page successfully." := by
          intro y
          unfold cleanToolOutput
          rw [if_pos hpw, if_neg (by simp [hss]), if_pos hnav]
        rw [hconst, hconst]
      · by_cases hck : containsSub (str "click") (pyLower t) = true
        · have hconst : ∀ y, cleanToolOutput t y =
              str "Clicked on the specified element." := by
            intro y
            unfold cleanToolOutput
            rw [if_pos hpw, if_neg (by simp [hss]), if_neg hnav, if_pos hck]
          rw [hconst, hconst]
        · have hssf : containsSub (str "screenshot") (pyLower t) = false := by
            simpa using hss
          have hnavf : containsSub (str "navigate") (pyLower t) = false := by
            rcases Bool.or_eq_false_iff.mp (by simpa using hnav) with ⟨h1, _⟩
            exact h1
          have hgof : containsSub (str "goto") (pyLower t) = false := by
            rcases Bool.or_eq_false_iff.mp (by simpa using hnav) with ⟨_, h2⟩
            exact h2
          have hckf : containsSub (str "click") (pyLower t) = false := by
            simpa using hck
          by_cases hgc : (containsSub (str "get") (pyLower t)
              && containsSub (str "content") (pyLower t)) = true
          · -- content-extraction arm, no truncation by hypothesis
            have hbr : ∀ y, cleanToolOutput t y = contentClean y :=
              fun y => cleanToolOutput_getContent t y hpw hssf hnavf hgof
                hckf hgc
            have hlen : ¬(1000 < (pyStrip (sub2 (sub1 x))).length) := by
              intro hlt
              rw [truncates] at h
              rw [hpw, hssf, hnavf, hgof, hckf, hgc] at h
              simp at h
              omega
            rw [hbr x]
            have hbody : contentClean x =
                if (pyStrip (pyStrip (sub2 (sub1 x)))).length = 0
                then str "Operation completed successfully."
                else pyStrip (sub2 (sub1 x)) := by
              unfold contentClean
              dsimp only
              rw [if_neg hlen]
            rw [pyStrip_idem] at hbody
            by_cases hy0 : (pyStrip (sub2 (sub1 x))).length = 0
            · rw [hbody, if_pos hy0, hbr]
              obtain ⟨m1, m2, m3, m4⟩ := marker_clean_facts
              exact contentClean_fixed _ m1 m2 m3 m4
            · rw [hbody, if_neg hy0, hbr]
              apply contentClean_fixed
              · exact hasTriple_pyStrip _ (hasTriple_sub2 _)
              · exact pyStrip_idem _
              · exact hlen
              · exact hy0
          · -- generic playwright arm
            have hgcf : (containsSub (str "get") (pyLower t)
                && containsSub (str "content") (pyLower t)) = false := by
              simpa using hgc
            have hbr : ∀ y, cleanToolOutput t y = otherClean y :=
              fun y => cleanToolOutput_otherPw t y hpw hssf hnavf hgof
                hckf hgcf
            have hofix : ∀ y, hasTriple y = false → ¬((pyStrip y).length = 0) →
                otherClean y = y := by
              intro y hty hny
              unfold otherClean
              dsimp only
              rw [sub1_eq_self y hty, sub2_eq_self y hty]
              rw [if_neg hny]
            rw [hbr x]
            by_cases hz0 : (pyStrip (sub2 (sub1 x))).length = 0
            · have hx1 : otherClean x =
                  str "Operation completed successfully." := by
                unfold otherClean
                dsimp only
                rw [if_pos hz0]
              rw [hx1, hbr]
              obtain ⟨m1, m2, m3, m4⟩ := marker_clean_facts
              apply hofix _ m1
              rw [m2]
              exact m4
            · have hx1 : otherClean x = sub2 (sub1 x) := by
                unfold otherClean
                dsimp only
                rw [if_neg hz0]
              rw [hx1, hbr]
              exact hofix _ (hasTriple_sub2 _) hz0
  · have hid : ∀ y, cleanToolOutput t y = y := by
      intro y
      unfold cleanToolOutput
      rw [if_neg hpw]
    rw [hid, hid]

theorem sanitizer_idempotent_without_truncation_witness :
    truncates (str "playwright_get_content") (str "  some page text  ") = false
    ∧ cleanToolOutput (str "playwright_get_content")
        (cleanToolOutput (str "playwright_get_content")
          (str "  some page text  "))
      = cleanToolOutput (str "playwright_get_content")
          (str "  some page text  ") := by
  have htr : hasTriple (str "  some page text  ") = false := by decide
  have hx : sub2 (sub1 (str "  some page text  ")) =
      str "  some page text  " := by
    rw [sub1_eq_self _ htr, sub2_eq_self _ htr]
  have ht : truncates (str "playwright_get_content")
      (str "  some page text  ") = false := by
    rw [truncates, hx]
    decide
  exact ⟨ht, sanitizer_idempotent_without_truncation _ _ ht⟩

end Napier
